import Mathlib

/-!
Verification of the singing-voice translation pipeline
(`singing-ai-pipeline-with-cosyvoice`): a shallow embedding, in Lean 4, of the
pure computational core of the repository's Python sources, together with
theorems checking the behaviour documented in the design specification.

Times are modelled as rationals (`ℚ`), Python lists as Lean `List`s, Python
`None`/missing dict keys as `Option`, and pydub audio segments as sample
tracks.  Stateful Python code (in-place list/dict mutation through aliases)
is modelled by explicit state passing: a function that mutates a caller's
object returns the caller-visible state of that object.
-/

/-! ## Chunker: `create_line_chunks_from_json` (generate_all_spanish_segments.py)

The word list of a segment is divided into exactly 4 line chunks.
`line_word_ranges` reproduces lines 124-141 of
`generate_all_spanish_segments.py`:

    total_words = len(word_timings)
    words_per_line = total_words // 4
    remainder = total_words % 4
    line_word_ranges = []
    current_idx = 0
    for line_num in range(4):
        line_size = words_per_line + (1 if line_num < remainder else 0)
        end_idx = min(current_idx + line_size - 1, total_words - 1)
        line_word_ranges.append((current_idx, end_idx))
        current_idx = end_idx + 1

The enclosing function returns `[]` when the word list is empty (lines
119-121), so `total_words = 0` never reaches this loop; for
`total_words ≥ 1` every `current_idx + line_size` is ≥ 1, hence the
truncated `Nat` subtraction below agrees with Python's integer arithmetic.
-/

def line_word_ranges (total_words : ℕ) : List (ℕ × ℕ) :=
  if total_words = 0 then []
  else
    ((List.range 4).foldl
      (fun acc line_num =>
        let words_per_line := total_words / 4
        let remainder := total_words % 4
        let line_size := words_per_line + (if line_num < remainder then 1 else 0)
        let end_idx := min (acc.2 + line_size - 1) (total_words - 1)
        (acc.1 ++ [(acc.2, end_idx)], end_idx + 1))
      ([], 0)).1

/-- Number of word indices covered by an inclusive chunk range `(s, e)`. -/
def chunk_word_count (r : ℕ × ℕ) : ℕ := r.2 + 1 - r.1

/-- Closed form for the start index of chunk `i` (0-based) of an `n`-word
division: the first `n % 4` chunks hold `n / 4 + 1` words, the rest `n / 4`. -/
def chunk_start (n i : ℕ) : ℕ := i * (n / 4) + min i (n % 4)

set_option maxHeartbeats 2000000 in
theorem line_word_ranges_closed_form (n : ℕ) (hn : 1 ≤ n) :
    line_word_ranges n =
      [(chunk_start n 0, chunk_start n 1 - 1),
       (chunk_start n 1, chunk_start n 2 - 1),
       (chunk_start n 2, chunk_start n 3 - 1),
       (chunk_start n 3, chunk_start n 4 - 1)] := by
  have h0 : n ≠ 0 := by omega
  rw [line_word_ranges, if_neg h0, show List.range 4 = [0, 1, 2, 3] from rfl]
  dsimp only [List.foldl_cons, List.foldl_nil, List.nil_append, List.cons_append,
    List.append_nil, chunk_start]
  simp only [List.cons.injEq, Prod.mk.injEq, and_true]
  split_ifs <;> refine ⟨?_, ?_, ?_, ?_⟩ <;> try exact ⟨by omega, by omega⟩

set_option maxHeartbeats 2000000 in
/-- C1.  For every non-empty word list of `n` words, the Chunker's
`line_word_ranges` partitions the indices `0 .. n-1` into 4 ordered,
contiguous, non-overlapping inclusive ranges covering every index exactly
once; with `base = n / 4` and `remainder = n % 4`, the first `remainder`
chunks contain `base + 1` words and the remaining chunks contain `base`
words.  In particular `n = 18` yields the ranges
`(0,4), (5,9), (10,13), (14,17)` of sizes 5, 5, 4, 4. -/
theorem chunker_partitions_words (n : ℕ) (hn : 1 ≤ n) :
    (line_word_ranges n).length = 4 ∧
    (∀ i, i < 4 → (line_word_ranges n).getD i (0, 0) =
        (chunk_start n i, chunk_start n (i + 1) - 1)) ∧
    (∀ i, i < 4 → chunk_word_count ((line_word_ranges n).getD i (0, 0)) =
        if i < n % 4 then n / 4 + 1 else n / 4) ∧
    ((line_word_ranges n).getD 0 (0, 0)).1 = 0 ∧
    (∀ i, i < 3 → ((line_word_ranges n).getD (i + 1) (0, 0)).1 =
        ((line_word_ranges n).getD i (0, 0)).2 + 1) ∧
    ((line_word_ranges n).getD 3 (0, 0)).2 = n - 1 ∧
    (∀ k, k < n → ((line_word_ranges n).filter
        (fun r => r.1 ≤ k && k ≤ r.2)).length = 1) ∧
    line_word_ranges 18 = [(0, 4), (5, 9), (10, 13), (14, 17)] := by
  rw [line_word_ranges_closed_form n hn]
  refine ⟨rfl, ?_, ?_, ?_, ?_, ?_, ?_, by decide⟩
  · intro i hi
    interval_cases i <;> rfl
  · intro i hi
    interval_cases i
    · show chunk_word_count (chunk_start n 0, chunk_start n 1 - 1) = _
      simp only [chunk_word_count, chunk_start]; split_ifs <;> omega
    · show chunk_word_count (chunk_start n 1, chunk_start n 2 - 1) = _
      simp only [chunk_word_count, chunk_start]; split_ifs <;> omega
    · show chunk_word_count (chunk_start n 2, chunk_start n 3 - 1) = _
      simp only [chunk_word_count, chunk_start]; split_ifs <;> omega
    · show chunk_word_count (chunk_start n 3, chunk_start n 4 - 1) = _
      simp only [chunk_word_count, chunk_start]; split_ifs <;> omega
  · show chunk_start n 0 = 0
    simp [chunk_start]
  · intro i hi
    interval_cases i
    · show chunk_start n 1 = chunk_start n 1 - 1 + 1
      simp only [chunk_start]; omega
    · show chunk_start n 2 = chunk_start n 2 - 1 + 1
      simp only [chunk_start]; omega
    · show chunk_start n 3 = chunk_start n 3 - 1 + 1
      simp only [chunk_start]; omega
  · show chunk_start n 4 - 1 = n - 1
    simp only [chunk_start]; omega
  · intro k hk
    simp only [List.filter_cons, List.filter_nil, Bool.and_eq_true, decide_eq_true_eq,
      chunk_start]
    split_ifs <;> try simp_all <;> omega

/-- Witness for C1 at the spec's concrete input `n = 18`. -/
theorem chunker_partitions_words_witness :
    (line_word_ranges 18).length = 4 ∧
    (∀ i, i < 4 → (line_word_ranges 18).getD i (0, 0) =
        (chunk_start 18 i, chunk_start 18 (i + 1) - 1)) ∧
    (∀ i, i < 4 → chunk_word_count ((line_word_ranges 18).getD i (0, 0)) =
        if i < 18 % 4 then 18 / 4 + 1 else 18 / 4) ∧
    ((line_word_ranges 18).getD 0 (0, 0)).1 = 0 ∧
    (∀ i, i < 3 → ((line_word_ranges 18).getD (i + 1) (0, 0)).1 =
        ((line_word_ranges 18).getD i (0, 0)).2 + 1) ∧
    ((line_word_ranges 18).getD 3 (0, 0)).2 = 18 - 1 ∧
    (∀ k, k < 18 → ((line_word_ranges 18).filter
        (fun r => r.1 ≤ k && k ≤ r.2)).length = 1) ∧
    line_word_ranges 18 = [(0, 4), (5, 9), (10, 13), (14, 17)] :=
  chunker_partitions_words 18 (by norm_num)

/-! ## Duration Reconciler (generate_from_analysis.py, lines 133-162)

After synthesis the generated tensor has `frames = audio.shape[1]` samples at
`frame_rate = cosyvoice.sample_rate`, so
`generated_duration = frames / frame_rate`.  The source computes
`duration_ratio = generated_duration / seg_duration` and, when
`abs(duration_ratio - 1.0) > 0.15`, applies a uniform playback-rate change:

    adjusted_audio = audio_seg._spawn(audio_seg.raw_data,
        overrides={'frame_rate': int(audio_seg.frame_rate * speed_factor)}
    ).set_frame_rate(audio_seg.frame_rate)

`_spawn` keeps the raw samples and plays them at `int(frame_rate * speed)`
frames per second, so the wall-clock duration becomes
`frames / int(frame_rate * speed)`; the final `set_frame_rate` resamples and
preserves that wall-clock duration.  `int()` on the positive product is a
floor.  `speed_factor` below is the source's `duration_ratio`
(`speed_factor = duration_ratio`, line 149); `15 / 100` is the literal
tolerance `0.15`. -/

def spawn_speed_duration (frames frame_rate : ℕ) (speed : ℚ) : ℚ :=
  (frames : ℚ) / ((Int.floor ((frame_rate : ℚ) * speed) : ℤ) : ℚ)

/-- The reconciliation decision for one generated segment: returns whether a
rate change was applied, and the wall-clock duration of the audio that is
kept (`final_duration` in the source's metadata). -/
def reconcile_generated_duration (frames frame_rate : ℕ) (seg_duration : ℚ) : Bool × ℚ :=
  let generated_duration : ℚ := (frames : ℚ) / (frame_rate : ℚ)
  let speed_factor := generated_duration / seg_duration
  if |speed_factor - 1| > 15 / 100 then
    (true, spawn_speed_duration frames frame_rate speed_factor)
  else
    (false, generated_duration)

/-- C2.  For every chunk with target duration `t > 0` and generated duration
`g = frames / frame_rate`, with `ratio = g / t`: if `|ratio - 1| ≤ 0.15` the
Duration Reconciler accepts the generated audio unchanged (no rate change,
duration stays `g`); otherwise it applies a uniform playback-rate change by
`ratio`, and the corrected wall-clock duration lands within
`t / ⌊frames / t⌋` of `t` (note `⌊frame_rate · ratio⌋ = ⌊frames / t⌋`), i.e.
within a small epsilon of the target at any realistic sample rate. -/
theorem duration_reconciler_tolerance (frames frame_rate : ℕ) (t : ℚ)
    (ht : 0 < t) (hfr : 0 < frame_rate) :
    (|(frames : ℚ) / (frame_rate : ℚ) / t - 1| ≤ 15 / 100 →
      reconcile_generated_duration frames frame_rate t =
        (false, (frames : ℚ) / (frame_rate : ℚ))) ∧
    (15 / 100 < |(frames : ℚ) / (frame_rate : ℚ) / t - 1| →
      1 ≤ Int.floor ((frames : ℚ) / t) →
      (reconcile_generated_duration frames frame_rate t).1 = true ∧
      t ≤ (reconcile_generated_duration frames frame_rate t).2 ∧
      (reconcile_generated_duration frames frame_rate t).2 - t <
        t / ((Int.floor ((frames : ℚ) / t) : ℤ) : ℚ)) := by
  have hfr0 : ((frame_rate : ℚ)) ≠ 0 := by positivity
  have harg : (frame_rate : ℚ) * ((frames : ℚ) / (frame_rate : ℚ) / t) = (frames : ℚ) / t := by
    field_simp
    ring
  constructor
  · intro h
    simp only [reconcile_generated_duration]
    rw [if_neg (not_lt.mpr h)]
  · intro h hm
    simp only [reconcile_generated_duration, spawn_speed_duration]
    rw [if_pos h, harg]
    refine ⟨rfl, ?_, ?_⟩
    · have hm' : (1 : ℚ) ≤ ((Int.floor ((frames : ℚ) / t) : ℤ) : ℚ) := by exact_mod_cast hm
      have hmpos : (0 : ℚ) < ((Int.floor ((frames : ℚ) / t) : ℤ) : ℚ) := by linarith
      have hfl : ((Int.floor ((frames : ℚ) / t) : ℤ) : ℚ) ≤ (frames : ℚ) / t :=
        Int.floor_le _
      have hx : ((Int.floor ((frames : ℚ) / t) : ℤ) : ℚ) * t ≤ (frames : ℚ) :=
        (le_div_iff₀ ht).mp hfl
      rw [le_div_iff₀ hmpos]
      linarith
    · have hm' : (1 : ℚ) ≤ ((Int.floor ((frames : ℚ) / t) : ℤ) : ℚ) := by exact_mod_cast hm
      have hmpos : (0 : ℚ) < ((Int.floor ((frames : ℚ) / t) : ℤ) : ℚ) := by linarith
      have hfl : (frames : ℚ) / t < ((Int.floor ((frames : ℚ) / t) : ℤ) : ℚ) + 1 :=
        Int.lt_floor_add_one _
      have hx : (frames : ℚ) < (((Int.floor ((frames : ℚ) / t) : ℤ) : ℚ) + 1) * t :=
        (div_lt_iff₀ ht).mp hfl
      rw [sub_lt_iff_lt_add, div_add' _ _ _ (ne_of_gt hmpos), div_lt_div_iff₀ hmpos hmpos]
      nlinarith

/-- Witness for C2 at the spec's concrete examples: `t = 10.0` with
`g = 10.05` (10050 frames at 1000 Hz, ratio 1.005: accepted unchanged) and
`g = 13.0` (286650 frames at 22050 Hz, ratio 1.3: rate-adjusted to within
`10 / 28665` seconds of 10.0s — here in fact exactly 10.0s). -/
theorem duration_reconciler_tolerance_witness :
    reconcile_generated_duration 10050 1000 10 = (false, 201 / 20) ∧
    (reconcile_generated_duration 286650 22050 10).1 = true ∧
    10 ≤ (reconcile_generated_duration 286650 22050 10).2 ∧
    (reconcile_generated_duration 286650 22050 10).2 - 10 < 10 / 28665 := by
  have h1 := (duration_reconciler_tolerance 10050 1000 10 (by norm_num) (by norm_num)).1
    (by rw [abs_le]; norm_num)
  have h2 := (duration_reconciler_tolerance 286650 22050 10 (by norm_num) (by norm_num)).2
    (by rw [lt_abs]; norm_num) (by norm_num)
  have hf : Int.floor (((286650 : ℕ) : ℚ) / 10) = 28665 := by norm_num
  rw [hf] at h2
  refine ⟨?_, h2.1, h2.2.1, by simpa using h2.2.2⟩
  rw [h1]
  norm_num

/-! ## Timeline Assembler: `merge_vocals_to_timeline` (merge_spanish_timeline.py)

A pydub `AudioSegment` is modelled as a `Track`: a length in milliseconds and
a sample function (one mixed value per millisecond position; positions at or
beyond `len` are irrelevant to every property below).  `AudioSegment.silent`
yields zeros, and `AudioSegment.overlay(clip, position=pos)` adds the clip's
samples into the base starting at `pos`, keeps the base's length, and drops
the clip tail that would extend past the base's end.  (pydub saturates the
sum at the 16-bit range; plain integer addition is used here, which is
equivalent for the silence/position/length properties proved below.)

`merge_vocals_to_timeline` (lines 112-150) computes
`total_duration_ms = int(max_end_time * 1000)`, allocates
`AudioSegment.silent(duration=total_duration_ms)` and overlays every
segment's vocal at `int(start_time * 1000)`.  `int()` on the non-negative
times is a floor.  The source's per-segment `speedup` adjustment (lines
134-142) only transforms the clip that is about to be overlaid; the theorems
below quantify over arbitrary clip contents, so they cover the adjusted clip
as well.  The source returns `None` before allocating anything when no
segments were found (lines 107-109). -/

structure Track where
  len : ℕ
  sample : ℕ → ℤ

def silent_track (duration_ms : ℕ) : Track := ⟨duration_ms, fun _ => 0⟩

def overlay_track (base clip : Track) (pos : ℕ) : Track :=
  ⟨base.len, fun i =>
    if pos ≤ i ∧ i < pos + clip.len ∧ i < base.len then
      base.sample i + clip.sample (i - pos)
    else base.sample i⟩

structure TimelineSegment where
  start_time : ℚ
  end_time : ℚ
  vocal : Track

def seconds_to_ms (q : ℚ) : ℕ := (Int.floor (q * 1000)).toNat

/-- Python's `max(seg['end_time'] for seg in segment_info)` over a non-empty
list (the empty case never reaches this expression in the source). -/
def max_end_time : List TimelineSegment → ℚ
  | [] => 0
  | s :: rest => rest.foldl (fun m x => max m x.end_time) s.end_time

def merge_vocals_to_timeline (segment_info : List TimelineSegment) : Option Track :=
  if segment_info.isEmpty then none
  else
    let total_duration_ms := seconds_to_ms (max_end_time segment_info)
    some (segment_info.foldl
      (fun base_track seg => overlay_track base_track seg.vocal (seconds_to_ms seg.start_time))
      (silent_track total_duration_ms))

theorem overlay_foldl_len (l : List TimelineSegment) (base : Track) :
    (l.foldl (fun b s => overlay_track b s.vocal (seconds_to_ms s.start_time)) base).len
      = base.len := by
  induction l generalizing base with
  | nil => rfl
  | cons s rest ih => simpa [overlay_track] using ih (overlay_track base s.vocal _)

theorem foldl_max_ge (l : List TimelineSegment) (a : ℚ) :
    a ≤ l.foldl (fun m x => max m x.end_time) a ∧
    ∀ s ∈ l, s.end_time ≤ l.foldl (fun m x => max m x.end_time) a := by
  induction l generalizing a with
  | nil => simp
  | cons x rest ih =>
    refine ⟨le_trans (le_max_left _ _) (ih (max a x.end_time)).1, ?_⟩
    intro s hs
    rcases List.mem_cons.mp hs with h | h
    · subst h
      exact le_trans (le_max_right _ _) (ih (max a s.end_time)).1
    · exact (ih (max a x.end_time)).2 s h

theorem foldl_max_attained (l : List TimelineSegment) (a : ℚ) :
    l.foldl (fun m x => max m x.end_time) a = a ∨
    ∃ s ∈ l, l.foldl (fun m x => max m x.end_time) a = s.end_time := by
  induction l generalizing a with
  | nil => exact Or.inl rfl
  | cons x rest ih =>
    rcases ih (max a x.end_time) with h | ⟨s, hs, h⟩
    · rcases max_cases a x.end_time with ⟨hm, _⟩ | ⟨hm, _⟩
      · exact Or.inl (by simpa [hm] using h)
      · exact Or.inr ⟨x, List.mem_cons_self _ _, by simpa [hm] using h⟩
    · exact Or.inr ⟨s, List.mem_cons_of_mem _ hs, h⟩

/-- C3.  For every non-empty set of timeline placements, the Timeline
Assembler allocates a silent master track sized to the maximum
`absolute_end` over all placements (in integer milliseconds), and each
overlay step mixes a placement's audio in starting at its `absolute_start`
without changing the master track's length and without touching any sample
outside the clip's own window — so no other placement is shifted.  In the
spec's example, placements of length 5s at 0s and 10s on a 20s master track
leave the sample windows [5s,10s) and [15s,20s) silent, and overlaying a 6s
clip at 10s changes no sample outside [10s,16s). -/
theorem timeline_assembler_invariants (segment_info : List TimelineSegment)
    (hne : segment_info ≠ []) :
    (∃ tr, merge_vocals_to_timeline segment_info = some tr ∧
        tr.len = seconds_to_ms (max_end_time segment_info)) ∧
    (∀ s ∈ segment_info, s.end_time ≤ max_end_time segment_info) ∧
    (∃ s ∈ segment_info, max_end_time segment_info = s.end_time) ∧
    (∀ base clip : Track, ∀ pos,
       (overlay_track base clip pos).len = base.len ∧
       (∀ i, i < pos ∨ pos + clip.len ≤ i →
          (overlay_track base clip pos).sample i = base.sample i) ∧
       (∀ i, pos ≤ i → i < pos + clip.len → i < base.len →
          (overlay_track base clip pos).sample i = base.sample i + clip.sample (i - pos))) ∧
    (∀ c1 c2 c3 : Track, c1.len = 5000 → c2.len = 5000 → c3.len = 6000 →
       (∀ i, (5000 ≤ i ∧ i < 10000) ∨ (15000 ≤ i ∧ i < 20000) →
          (overlay_track (overlay_track (silent_track 20000) c1 0) c2 10000).sample i = 0) ∧
       (overlay_track (overlay_track (overlay_track (silent_track 20000) c1 0) c2 10000)
          c3 10000).len = 20000 ∧
       (∀ i, i < 10000 ∨ 16000 ≤ i →
          (overlay_track (overlay_track (overlay_track (silent_track 20000) c1 0) c2 10000)
            c3 10000).sample i =
          (overlay_track (overlay_track (silent_track 20000) c1 0) c2 10000).sample i)) := by
  obtain ⟨s0, rest, rfl⟩ : ∃ s0 rest, segment_info = s0 :: rest := by
    cases segment_info with
    | nil => exact absurd rfl hne
    | cons a l => exact ⟨a, l, rfl⟩
  refine ⟨?_, ?_, ?_, ?_, ?_⟩
  · have hmerge : merge_vocals_to_timeline (s0 :: rest) =
        some ((s0 :: rest).foldl
          (fun b s => overlay_track b s.vocal (seconds_to_ms s.start_time))
          (silent_track (seconds_to_ms (max_end_time (s0 :: rest))))) := by
      simp [merge_vocals_to_timeline]
    refine ⟨_, hmerge, ?_⟩
    rw [overlay_foldl_len]
    rfl
  · intro s hs
    rcases List.mem_cons.mp hs with h | h
    · subst h
      exact (foldl_max_ge rest s.end_time).1
    · exact (foldl_max_ge rest s0.end_time).2 s h
  · rcases foldl_max_attained rest s0.end_time with h | ⟨s, hs, h⟩
    · exact ⟨s0, List.mem_cons_self _ _, h⟩
    · exact ⟨s, List.mem_cons_of_mem _ hs, h⟩
  · intro base clip pos
    refine ⟨rfl, ?_, ?_⟩
    · intro i hi
      simp only [overlay_track]
      rw [if_neg (by omega)]
    · intro i h1 h2 h3
      simp only [overlay_track]
      rw [if_pos ⟨h1, h2, h3⟩]
  · intro c1 c2 c3 h1 h2 h3
    refine ⟨?_, rfl, ?_⟩
    · intro i hi
      simp only [overlay_track, silent_track, h1, h2]
      rcases hi with ⟨ha, hb⟩ | ⟨ha, hb⟩ <;>
        { rw [if_neg (by omega), if_neg (by omega)] }
    · intro i hi
      simp only [overlay_track, h3]
      rw [if_neg (by omega)]

/-- Concrete placements for the C3 witness: 0s-5s and 10s-15s. -/
def demo_segments : List TimelineSegment :=
  [⟨0, 5, ⟨5000, fun _ => 1⟩⟩, ⟨10, 15, ⟨5000, fun _ => 2⟩⟩]

/-- Witness for C3 on the spec's two concrete placements. -/
theorem timeline_assembler_invariants_witness :
    (∃ tr, merge_vocals_to_timeline demo_segments = some tr ∧
        tr.len = seconds_to_ms (max_end_time demo_segments)) ∧
    (∀ s ∈ demo_segments, s.end_time ≤ max_end_time demo_segments) ∧
    (∃ s ∈ demo_segments, max_end_time demo_segments = s.end_time) ∧
    (∀ base clip : Track, ∀ pos,
       (overlay_track base clip pos).len = base.len ∧
       (∀ i, i < pos ∨ pos + clip.len ≤ i →
          (overlay_track base clip pos).sample i = base.sample i) ∧
       (∀ i, pos ≤ i → i < pos + clip.len → i < base.len →
          (overlay_track base clip pos).sample i = base.sample i + clip.sample (i - pos))) ∧
    (∀ c1 c2 c3 : Track, c1.len = 5000 → c2.len = 5000 → c3.len = 6000 →
       (∀ i, (5000 ≤ i ∧ i < 10000) ∨ (15000 ≤ i ∧ i < 20000) →
          (overlay_track (overlay_track (silent_track 20000) c1 0) c2 10000).sample i = 0) ∧
       (overlay_track (overlay_track (overlay_track (silent_track 20000) c1 0) c2 10000)
          c3 10000).len = 20000 ∧
       (∀ i, i < 10000 ∨ 16000 ≤ i →
          (overlay_track (overlay_track (overlay_track (silent_track 20000) c1 0) c2 10000)
            c3 10000).sample i =
          (overlay_track (overlay_track (silent_track 20000) c1 0) c2 10000).sample i)) :=
  timeline_assembler_invariants demo_segments (by simp [demo_segments])

/-! ## Timing Enricher: `enrich_word_timings_with_features` (analyze_vocals_precise.py)

`pitch_contour` entries are `{"time": t, "pitch_hz": v}` dicts (in
analyze_specific_segment.py the time key is spelled `time_relative`; the
structure is the same) and the energy series is the pair of parallel arrays
`rms_times` / `rms_db`, modelled here as a list of time/value samples.
`np.mean`, `np.min` and `np.max` over a non-empty selection are `np_mean`,
`np_min` and `np_max` (the `getD 0` default of the latter two is never
reached: the source only applies them under the non-emptiness guard).

Lines 327-356: for each word the energy mask is
`(rms_times >= start) & (rms_times <= end)` and the pitch selection is
`[p for p in pitch_contour if start <= p['time'] <= end]` — both closed
intervals; when a selection is empty every dependent field is set to `None`
(`avg_note`, derived via the external `librosa.hz_to_note`, is outside this
embedding). -/

structure PitchSample where
  time : ℚ
  pitch_hz : ℚ
deriving DecidableEq

structure EnergySample where
  time : ℚ
  energy_db : ℚ
deriving DecidableEq

structure FeatureWord where
  word : String
  start : ℚ
  stop : ℚ
  avg_energy_db : Option ℚ
  max_energy_db : Option ℚ
  avg_pitch_hz : Option ℚ
  min_pitch_hz : Option ℚ
  max_pitch_hz : Option ℚ
  pitch_range_hz : Option ℚ
deriving DecidableEq

instance : Std.Antisymm (fun x1 x2 : ℚ => x1 ≤ x2) := ⟨fun h h2 => le_antisymm h h2⟩

def np_min (l : List ℚ) : ℚ := (l.min?).getD 0

def np_max (l : List ℚ) : ℚ := (l.max?).getD 0

def np_mean (l : List ℚ) : ℚ := l.sum / l.length

def enrich_word (pitch_contour : List PitchSample) (rms_samples : List EnergySample)
    (w : FeatureWord) : FeatureWord :=
  let energy_sel := rms_samples.filter
    (fun s => decide (w.start ≤ s.time) && decide (s.time ≤ w.stop))
  let word_pitches := (pitch_contour.filter
    (fun p => decide (w.start ≤ p.time) && decide (p.time ≤ w.stop))).map (fun p => p.pitch_hz)
  { w with
    avg_energy_db :=
      if energy_sel = [] then none else some (np_mean (energy_sel.map (fun s => s.energy_db)))
    max_energy_db :=
      if energy_sel = [] then none else some (np_max (energy_sel.map (fun s => s.energy_db)))
    avg_pitch_hz := if word_pitches = [] then none else some (np_mean word_pitches)
    min_pitch_hz := if word_pitches = [] then none else some (np_min word_pitches)
    max_pitch_hz := if word_pitches = [] then none else some (np_max word_pitches)
    pitch_range_hz :=
      if word_pitches = [] then none
      else some (np_max word_pitches - np_min word_pitches) }

def enrich_word_timings_with_features (word_timings : List FeatureWord)
    (pitch_contour : List PitchSample) (rms_samples : List EnergySample) : List FeatureWord :=
  word_timings.map (enrich_word pitch_contour rms_samples)

theorem rat_max?_eq_none (l : List ℚ) : l.max? = none ↔ l = [] := by
  cases l <;> simp [List.max?]

theorem rat_min?_eq_none (l : List ℚ) : l.min? = none ↔ l = [] := by
  cases l <;> simp [List.min?]

theorem rat_max?_spec (l : List ℚ) (v : ℚ) (h : l.max? = some v) : v ∈ l ∧ ∀ x ∈ l, x ≤ v := by
  rw [List.max?_eq_some_iff (le_refl) (fun a b => max_choice a b) (fun a b c => max_le_iff)] at h
  exact h

theorem rat_min?_spec (l : List ℚ) (v : ℚ) (h : l.min? = some v) : v ∈ l ∧ ∀ x ∈ l, v ≤ x := by
  rw [List.min?_eq_some_iff (le_refl) (fun a b => min_choice a b) (fun a b c => le_min_iff)] at h
  exact h

theorem np_max_spec (l : List ℚ) (h : l ≠ []) : np_max l ∈ l ∧ ∀ x ∈ l, x ≤ np_max l := by
  obtain ⟨v, hv⟩ : ∃ v, l.max? = some v := by
    cases hm : l.max? with
    | none => exact absurd ((rat_max?_eq_none l).mp hm) h
    | some v => exact ⟨v, rfl⟩
  have := rat_max?_spec l v hv
  simpa [np_max, hv] using this

theorem np_min_spec (l : List ℚ) (h : l ≠ []) : np_min l ∈ l ∧ ∀ x ∈ l, np_min l ≤ x := by
  obtain ⟨v, hv⟩ : ∃ v, l.min? = some v := by
    cases hm : l.min? with
    | none => exact absurd ((rat_min?_eq_none l).mp hm) h
    | some v => exact ⟨v, rfl⟩
  have := rat_min?_spec l v hv
  simpa [np_min, hv] using this

/-- C7.  The Timing Enricher aggregates, for every word, exactly the pitch
samples whose time lies in the closed interval `[start, end]` and exactly
the energy samples in the same closed interval; a word with no qualifying
pitch samples has all pitch fields null and a word with no qualifying energy
samples has all energy fields null — never a default numeric value: a field
is `none` precisely when no sample qualifies, and a populated min/max field
is attained by, and bounds, exactly the closed-interval samples. -/
theorem enricher_closed_interval (pitch_contour : List PitchSample)
    (rms_samples : List EnergySample) (w : FeatureWord) :
    ((enrich_word pitch_contour rms_samples w).avg_pitch_hz = none ↔
       ∀ p ∈ pitch_contour, p.time < w.start ∨ w.stop < p.time) ∧
    ((enrich_word pitch_contour rms_samples w).min_pitch_hz = none ↔
       ∀ p ∈ pitch_contour, p.time < w.start ∨ w.stop < p.time) ∧
    ((enrich_word pitch_contour rms_samples w).max_pitch_hz = none ↔
       ∀ p ∈ pitch_contour, p.time < w.start ∨ w.stop < p.time) ∧
    ((enrich_word pitch_contour rms_samples w).pitch_range_hz = none ↔
       ∀ p ∈ pitch_contour, p.time < w.start ∨ w.stop < p.time) ∧
    ((enrich_word pitch_contour rms_samples w).avg_energy_db = none ↔
       ∀ s ∈ rms_samples, s.time < w.start ∨ w.stop < s.time) ∧
    ((enrich_word pitch_contour rms_samples w).max_energy_db = none ↔
       ∀ s ∈ rms_samples, s.time < w.start ∨ w.stop < s.time) ∧
    (∀ v, (enrich_word pitch_contour rms_samples w).max_pitch_hz = some v →
       (∃ p ∈ pitch_contour, (w.start ≤ p.time ∧ p.time ≤ w.stop) ∧ p.pitch_hz = v) ∧
       ∀ p ∈ pitch_contour, w.start ≤ p.time → p.time ≤ w.stop → p.pitch_hz ≤ v) ∧
    (∀ v, (enrich_word pitch_contour rms_samples w).min_pitch_hz = some v →
       (∃ p ∈ pitch_contour, (w.start ≤ p.time ∧ p.time ≤ w.stop) ∧ p.pitch_hz = v) ∧
       ∀ p ∈ pitch_contour, w.start ≤ p.time → p.time ≤ w.stop → v ≤ p.pitch_hz) := by
  have hnot : ∀ t : ℚ, ¬(w.start ≤ t ∧ t ≤ w.stop) ↔ (t < w.start ∨ w.stop < t) := by
    intro t
    rw [not_and_or, not_le, not_le]
  have hpitch_nil :
      ((pitch_contour.filter
        (fun p => decide (w.start ≤ p.time) && decide (p.time ≤ w.stop))).map
          (fun p => p.pitch_hz)) = []
      ↔ ∀ p ∈ pitch_contour, p.time < w.start ∨ w.stop < p.time := by
    rw [List.map_eq_nil_iff, List.filter_eq_nil_iff]
    constructor
    · intro h p hp
      refine (hnot p.time).mp ?_
      have := h p hp
      simp only [Bool.and_eq_true, decide_eq_true_eq] at this
      tauto
    · intro h p hp
      have := (hnot p.time).mpr (h p hp)
      simp only [Bool.and_eq_true, decide_eq_true_eq]
      tauto
  have henergy_nil :
      (rms_samples.filter
        (fun s => decide (w.start ≤ s.time) && decide (s.time ≤ w.stop))) = []
      ↔ ∀ s ∈ rms_samples, s.time < w.start ∨ w.stop < s.time := by
    rw [List.filter_eq_nil_iff]
    constructor
    · intro h s hs
      refine (hnot s.time).mp ?_
      have := h s hs
      simp only [Bool.and_eq_true, decide_eq_true_eq] at this
      tauto
    · intro h s hs
      have := (hnot s.time).mpr (h s hs)
      simp only [Bool.and_eq_true, decide_eq_true_eq]
      tauto
  have hmem : ∀ v, v ∈ ((pitch_contour.filter
        (fun p => decide (w.start ≤ p.time) && decide (p.time ≤ w.stop))).map
          (fun p => p.pitch_hz)) ↔
      ∃ p ∈ pitch_contour, (w.start ≤ p.time ∧ p.time ≤ w.stop) ∧ p.pitch_hz = v := by
    intro v
    simp only [List.mem_map, List.mem_filter, Bool.and_eq_true, decide_eq_true_eq]
    constructor
    · rintro ⟨p, ⟨hp, hc1, hc2⟩, hv⟩
      exact ⟨p, hp, ⟨hc1, hc2⟩, hv⟩
    · rintro ⟨p, hp, ⟨hc1, hc2⟩, hv⟩
      exact ⟨p, ⟨hp, hc1, hc2⟩, hv⟩
  have hite : ∀ (c : Prop) [Decidable c] (y : ℚ),
      ((if c then none else some y) = none) ↔ c := by
    intro c _ y
    split_ifs with h <;> simp [h]
  refine ⟨?_, ?_, ?_, ?_, ?_, ?_, ?_, ?_⟩
  · exact (hite _ _).trans hpitch_nil
  · exact (hite _ _).trans hpitch_nil
  · exact (hite _ _).trans hpitch_nil
  · exact (hite _ _).trans hpitch_nil
  · exact (hite _ _).trans henergy_nil
  · exact (hite _ _).trans henergy_nil
  · intro v hv
    simp only [enrich_word] at hv
    split_ifs at hv with hemp
    have hv' := Option.some.inj hv
    subst hv'
    obtain ⟨hmemmax, hub⟩ := np_max_spec _ hemp
    exact ⟨(hmem _).mp hmemmax,
      fun p hp h1 h2 => hub _ ((hmem p.pitch_hz).mpr ⟨p, hp, ⟨h1, h2⟩, rfl⟩)⟩
  · intro v hv
    simp only [enrich_word] at hv
    split_ifs at hv with hemp
    have hv' := Option.some.inj hv
    subst hv'
    obtain ⟨hmemmin, hlb⟩ := np_min_spec _ hemp
    exact ⟨(hmem _).mp hmemmin,
      fun p hp h1 h2 => hlb _ ((hmem p.pitch_hz).mpr ⟨p, hp, ⟨h1, h2⟩, rfl⟩)⟩

/-! ## Dual-frame words: `extract_and_analyze_specific_segment` (analyze_specific_segment.py)

Lines 104-137 build one dual-frame record per transcription word:

    time_relative_start = float(word.start); time_relative_end = float(word.end)
    time_absolute_start = start_time + time_relative_start
    time_absolute_end = start_time + time_relative_end

plus the optional per-word pitch/energy aggregates over the closed interval
(keys absent when no sample qualifies; absent and `None` are both `none`
here).  The transcription words come from the external speech-to-text
engine and are copied without validation. -/

structure TransWord where
  word : String
  start : ℚ
  stop : ℚ
deriving DecidableEq, Inhabited

structure DualFrameWord where
  index : ℕ
  word : String
  rel_start : ℚ
  rel_end : ℚ
  rel_duration : ℚ
  abs_start : ℚ
  abs_end : ℚ
  abs_duration : ℚ
  avg_pitch_hz : Option ℚ
  avg_energy_db : Option ℚ
deriving DecidableEq, Inhabited

def build_word_timings_dual (start_time : ℚ) (trans_words : List TransWord)
    (pitch_contour : List PitchSample) (rms_samples : List EnergySample) :
    List DualFrameWord :=
  trans_words.enum.map (fun iw =>
    let time_relative_start := iw.2.start
    let time_relative_end := iw.2.stop
    let time_absolute_start := start_time + time_relative_start
    let time_absolute_end := start_time + time_relative_end
    let word_pitches := (pitch_contour.filter
      (fun p => decide (time_relative_start ≤ p.time) &&
                decide (p.time ≤ time_relative_end))).map (fun p => p.pitch_hz)
    let energy_sel := rms_samples.filter
      (fun s => decide (time_relative_start ≤ s.time) && decide (s.time ≤ time_relative_end))
    { index := iw.1
      word := iw.2.word.trim
      rel_start := time_relative_start
      rel_end := time_relative_end
      rel_duration := time_relative_end - time_relative_start
      abs_start := time_absolute_start
      abs_end := time_absolute_end
      abs_duration := time_absolute_end - time_absolute_start
      avg_pitch_hz := if word_pitches = [] then none else some (np_mean word_pitches)
      avg_energy_db :=
        if energy_sel = [] then none
        else some (np_mean (energy_sel.map (fun s => s.energy_db))) })

/-- C5 (amended).  Every WordSpan produced for a region with absolute start
`s` carries both time frames and satisfies
`absolute_start - relative_start = s` and `absolute_end - relative_end = s`
(dual-frame consistency), unconditionally.  `relative_end > relative_start`,
however, holds for the i-th produced word exactly when the external
transcription engine's i-th word already has `end > start`: the code copies
the engine's timestamps without validating them. -/
theorem dual_frame_word_consistency (start_time : ℚ) (trans_words : List TransWord)
    (pitch_contour : List PitchSample) (rms_samples : List EnergySample) :
    (build_word_timings_dual start_time trans_words pitch_contour rms_samples).length
      = trans_words.length ∧
    (∀ d ∈ build_word_timings_dual start_time trans_words pitch_contour rms_samples,
       d.abs_start - d.rel_start = start_time ∧ d.abs_end - d.rel_end = start_time) ∧
    (∀ i, i < trans_words.length →
       (((build_word_timings_dual start_time trans_words pitch_contour rms_samples).getD
           i default).rel_start <
        ((build_word_timings_dual start_time trans_words pitch_contour rms_samples).getD
           i default).rel_end ↔
        (trans_words.getD i default).start < (trans_words.getD i default).stop)) := by
  refine ⟨by simp [build_word_timings_dual], ?_, ?_⟩
  · intro d hd
    simp only [build_word_timings_dual, List.mem_map] at hd
    obtain ⟨iw, hmem, rfl⟩ := hd
    constructor <;> ring
  · intro i hi
    have hlen : (build_word_timings_dual start_time trans_words pitch_contour
        rms_samples).length = trans_words.length := by
      simp [build_word_timings_dual]
    rw [List.getD_eq_getElem _ _ (by omega : i < (build_word_timings_dual start_time
      trans_words pitch_contour rms_samples).length),
      List.getD_eq_getElem _ _ hi]
    simp only [build_word_timings_dual, List.getElem_map, List.getElem_enum]

/-- Counterexample to C5 as stated: when the transcription engine reports a
zero-duration word (`start = end = 1.0`, which nothing in the code
prevents), the produced WordSpan violates `relative_end > relative_start`. -/
theorem dual_frame_degenerate_word :
    ¬ ∀ d ∈ build_word_timings_dual 93 [⟨"hola", 1, 1⟩] [] [],
        d.rel_start < d.rel_end := by
  decide

/-- Witness for C5's amended theorem on a concrete word list. -/
theorem dual_frame_word_consistency_witness :
    (build_word_timings_dual 93 [⟨" hola", 1, 3/2⟩] [] []).length
      = ([⟨" hola", 1, 3/2⟩] : List TransWord).length ∧
    (∀ d ∈ build_word_timings_dual 93 [⟨" hola", 1, 3/2⟩] [] [],
       d.abs_start - d.rel_start = 93 ∧ d.abs_end - d.rel_end = 93) ∧
    (∀ i, i < ([⟨" hola", 1, 3/2⟩] : List TransWord).length →
       (((build_word_timings_dual 93 [⟨" hola", 1, 3/2⟩] [] []).getD i default).rel_start <
        ((build_word_timings_dual 93 [⟨" hola", 1, 3/2⟩] [] []).getD i default).rel_end ↔
        (([⟨" hola", 1, 3/2⟩] : List TransWord).getD i default).start <
        (([⟨" hola", 1, 3/2⟩] : List TransWord).getD i default).stop)) :=
  dual_frame_word_consistency 93 [⟨" hola", 1, 3/2⟩] [] []

/-! ## Trimming: `trim_segment_to_word` (trim_segment.py)

The per-run analysis report (analyze_vocals_precise.py, lines 683-704) is a
nested JSON object; the nested groups that trimming touches are modelled as
sub-structures (`SegmentRange`, `AudioAnalysisData`, `TranscriptionData`,
`SummaryData`; `AudioAnalysisData` keeps the feature series relevant to the
claims, further series behave identically).  Python's `str.lower` is
`str_lower` (per-character lowercase; `String.toLower` itself does not
reduce in the kernel) and `' '.join` is `String.intercalate " "`.

`trim_segment_to_word` (lines 72-94) takes the first word whose lowercased
text matches, truncates the word lists at its index, and builds
`updated_analysis = analysis.copy()` — a SHALLOW dict copy.  The nested
dicts are shared between the copy and the original, so the item assignments

    updated_analysis['segment_range']['end'] = ...
    updated_analysis['segment_range']['duration'] = ...
    updated_analysis['audio_analysis']['duration'] = ...
    updated_analysis['transcription']['word_timings'] = filtered_words
    updated_analysis['summary']['total_words'] = ...
    updated_analysis['transcription']['full_text'] = ...

also mutate the caller's `analysis` object; only the top-level assignments
(`segment_file`, `word_segments`) stay private to the copy.  The function
therefore returns the pair `(trimmed report, caller-visible parent state)`;
it returns `none` when the target word is absent (the source prints an
error and writes nothing).  The feature series inside `audio_analysis`
(pitch contour, onsets, beats, energy) are NOT filtered: only the scalar
`duration` is updated.  The original `analysis_report.json` file on disk is
not rewritten — the derivative goes to `analysis_report_trimmed.json`. -/

structure TimedWord where
  index : ℕ
  word : String
  start : ℚ
  stop : ℚ
  duration : ℚ
deriving DecidableEq, Inhabited

structure SegmentRange where
  start : ℚ
  stop : ℚ
  duration : ℚ
deriving DecidableEq

structure AudioAnalysisData where
  duration : ℚ
  pitch_contour : List PitchSample
  onset_times_relative : List ℚ
deriving DecidableEq

structure TranscriptionData where
  full_text : String
  word_timings : List TimedWord
deriving DecidableEq

structure SummaryData where
  total_words : ℕ
deriving DecidableEq

structure AnalysisRecord where
  segment_file : String
  segment_range : SegmentRange
  audio_analysis : AudioAnalysisData
  transcription : TranscriptionData
  word_segments : List TimedWord
  summary : SummaryData
deriving DecidableEq

def str_lower (s : String) : String := ⟨s.data.map Char.toLower⟩

def trim_segment_to_word (analysis : AnalysisRecord) (target_word : String) :
    Option (AnalysisRecord × AnalysisRecord) :=
  match analysis.transcription.word_timings.find?
      (fun x => str_lower x.word == str_lower target_word) with
  | none => none
  | some target_word_data =>
    let trim_end_time := target_word_data.stop
    let target_index := target_word_data.index
    let filtered_words := analysis.transcription.word_timings.filter
      (fun x => decide (x.index ≤ target_index))
    let filtered_word_segments := analysis.word_segments.filter
      (fun x => decide (x.index ≤ target_index))
    let updated_text := String.intercalate " " (filtered_words.map (fun x => x.word))
    let shared_segment_range : SegmentRange :=
      { start := analysis.segment_range.start
        stop := analysis.segment_range.start + trim_end_time
        duration := trim_end_time }
    let shared_audio_analysis :=
      { analysis.audio_analysis with duration := trim_end_time }
    let shared_transcription : TranscriptionData :=
      { full_text := updated_text, word_timings := filtered_words }
    let shared_summary : SummaryData := { total_words := filtered_words.length }
    let parent_after : AnalysisRecord :=
      { analysis with
        segment_range := shared_segment_range
        audio_analysis := shared_audio_analysis
        transcription := shared_transcription
        summary := shared_summary }
    let updated_analysis : AnalysisRecord :=
      { parent_after with
        segment_file := analysis.segment_file ++ "_trimmed"
        word_segments := filtered_word_segments }
    some (updated_analysis, parent_after)

theorem filter_index_le_length (l : List TimedWord) (base m : ℕ)
    (h : ∀ k, k < l.length → (l.getD k default).index = base + k) :
    (l.filter (fun x => decide (x.index ≤ m))).length = min (m + 1 - base) l.length := by
  induction l generalizing base with
  | nil => simp
  | cons x rest ih =>
    have hx : x.index = base := by simpa using h 0 (by simp)
    have hrest : ∀ k, k < rest.length → (rest.getD k default).index = (base + 1) + k := by
      intro k hk
      have := h (k + 1) (by simpa using Nat.succ_lt_succ hk)
      simpa [Nat.add_assoc, Nat.add_comm 1 k] using this
    rw [List.filter_cons]
    by_cases hb : x.index ≤ m
    · rw [if_pos (by simpa using hb)]
      simp only [List.length_cons, ih (base + 1) hrest]
      omega
    · rw [if_neg (by simpa using hb)]
      rw [ih (base + 1) hrest]
      simp only [List.length_cons]
      omega

/-- C4 (amended).  Trimming at the word with index `i` produces a new
derivative record whose word list has length exactly `i + 1` (the words with
index ≤ i) and whose region/duration fields are cut to the trim point, and
the derivative is written under a separate name, leaving the persisted
original report file unmodified.  However, the feature series covering times
beyond the trim point (pitch contour, onsets, …) are retained, not removed —
only the scalar duration fields change — and the parent in-memory record IS
mutated through the shallow-copy-shared nested sub-objects: after the call
the parent's `segment_range`, `audio_analysis`, `transcription` and
`summary` are the derivative's; only the parent's top-level `segment_file`
and `word_segments` bindings keep their old values. -/
theorem trim_segment_derivative (analysis : AnalysisRecord) (target_word : String)
    (w : TimedWord)
    (hfind : analysis.transcription.word_timings.find?
        (fun x => str_lower x.word == str_lower target_word) = some w)
    (hidx : ∀ k, k < analysis.transcription.word_timings.length →
        (analysis.transcription.word_timings.getD k default).index = k) :
    ∃ der par, trim_segment_to_word analysis target_word = some (der, par) ∧
      der.transcription.word_timings =
        analysis.transcription.word_timings.filter (fun x => decide (x.index ≤ w.index)) ∧
      der.transcription.word_timings.length = w.index + 1 ∧
      der.segment_range.stop = analysis.segment_range.start + w.stop ∧
      der.segment_range.duration = w.stop ∧
      der.audio_analysis.duration = w.stop ∧
      der.audio_analysis.pitch_contour = analysis.audio_analysis.pitch_contour ∧
      der.audio_analysis.onset_times_relative = analysis.audio_analysis.onset_times_relative ∧
      der.segment_file = analysis.segment_file ++ "_trimmed" ∧
      par.segment_file = analysis.segment_file ∧
      par.word_segments = analysis.word_segments ∧
      par.segment_range = der.segment_range ∧
      par.audio_analysis = der.audio_analysis ∧
      par.transcription = der.transcription ∧
      par.summary = der.summary := by
  have hwlt : w.index < analysis.transcription.word_timings.length := by
    have hmem := List.mem_of_find?_eq_some hfind
    obtain ⟨k, hk, hkw⟩ := List.mem_iff_getElem.mp hmem
    have := hidx k hk
    rw [List.getD_eq_getElem _ _ hk, hkw] at this
    omega
  have hlen : (analysis.transcription.word_timings.filter
      (fun x => decide (x.index ≤ w.index))).length = w.index + 1 := by
    have h0 : ∀ k, k < analysis.transcription.word_timings.length →
        (analysis.transcription.word_timings.getD k default).index = 0 + k := by
      simpa using hidx
    rw [filter_index_le_length _ 0 w.index h0]
    omega
  simp only [trim_segment_to_word, hfind]
  exact ⟨_, _, rfl, rfl, hlen, rfl, rfl, rfl, rfl, rfl, rfl, rfl, rfl, rfl, rfl, rfl, rfl⟩

/-- A concrete two-word analysis record (absolute range 6s-23s, a pitch
sample at 1.5s) used by the C4 counterexample and witness. -/
def trim_demo_record : AnalysisRecord :=
  { segment_file := "segment_6-23s.wav"
    segment_range := ⟨6, 23, 17⟩
    audio_analysis := ⟨17, [⟨1/2, 220⟩, ⟨3/2, 330⟩], [1/10]⟩
    transcription := ⟨"hola feliz", [⟨0, "hola", 0, 1, 1⟩, ⟨1, "feliz", 1, 2, 1⟩]⟩
    word_segments := [⟨0, "hola", 0, 1, 1⟩, ⟨1, "feliz", 1, 2, 1⟩]
    summary := ⟨2⟩ }

/-- Counterexample to C4 as stated: trimming `trim_demo_record` at "hola"
(index 0, word end 1.0s) leaves the caller's parent record mutated
(`par ≠ trim_demo_record` — its shared nested dicts were written through),
and the derivative still carries a pitch-contour sample at 1.5s, beyond the
1.0s trim point, so feature data past the trim point is not absent. -/
theorem trim_mutates_parent_counterexample :
    ∃ der par, trim_segment_to_word trim_demo_record "hola" = some (der, par) ∧
      par ≠ trim_demo_record ∧
      (∃ p ∈ der.audio_analysis.pitch_contour, der.audio_analysis.duration < p.time) := by
  have hfind : trim_demo_record.transcription.word_timings.find?
      (fun x => str_lower x.word == str_lower "hola") = some ⟨0, "hola", 0, 1, 1⟩ := by
    decide
  simp only [trim_segment_to_word, hfind]
  refine ⟨_, _, rfl, ?_, ?_⟩
  · intro h
    have hlen := congrArg (fun r => r.transcription.word_timings.length) h
    simp [trim_demo_record] at hlen
  · refine ⟨⟨3/2, 330⟩, by simp [trim_demo_record], ?_⟩
    show (⟨0, "hola", 0, 1, 1⟩ : TimedWord).stop < (3 / 2 : ℚ)
    norm_num

/-- Witness for C4's amended theorem: trimming the demo record at "FELIZ"
(case-insensitive match, index 1). -/
theorem trim_segment_derivative_witness :
    ∃ der par, trim_segment_to_word trim_demo_record "FELIZ" = some (der, par) ∧
      der.transcription.word_timings =
        trim_demo_record.transcription.word_timings.filter
          (fun x => decide (x.index ≤ (⟨1, "feliz", 1, 2, 1⟩ : TimedWord).index)) ∧
      der.transcription.word_timings.length = (⟨1, "feliz", 1, 2, 1⟩ : TimedWord).index + 1 ∧
      der.segment_range.stop =
        trim_demo_record.segment_range.start + (⟨1, "feliz", 1, 2, 1⟩ : TimedWord).stop ∧
      der.segment_range.duration = (⟨1, "feliz", 1, 2, 1⟩ : TimedWord).stop ∧
      der.audio_analysis.duration = (⟨1, "feliz", 1, 2, 1⟩ : TimedWord).stop ∧
      der.audio_analysis.pitch_contour = trim_demo_record.audio_analysis.pitch_contour ∧
      der.audio_analysis.onset_times_relative =
        trim_demo_record.audio_analysis.onset_times_relative ∧
      der.segment_file = trim_demo_record.segment_file ++ "_trimmed" ∧
      par.segment_file = trim_demo_record.segment_file ∧
      par.word_segments = trim_demo_record.word_segments ∧
      par.segment_range = der.segment_range ∧
      par.audio_analysis = der.audio_analysis ∧
      par.transcription = der.transcription ∧
      par.summary = der.summary :=
  trim_segment_derivative trim_demo_record "FELIZ" ⟨1, "feliz", 1, 2, 1⟩ (by decide) (by decide)

/-! ## Chunker output, truthiness aggregation and target-line padding
(generate_all_spanish_segments.py, lines 107-220)

`WordTiming` is one entry of `word_timings_dual_frame` as the Chunker reads
it: the relative start/end times (seconds), the word text, and the optional
enrichment values (`avg_pitch_hz` / `avg_energy_db`; a missing key and an
explicit `None` both map to `none`).  `LineChunk` is the dict appended to
`chunks` (lines 207-216), with the extracted clip kept as its millisecond
bounds (`clip_start_ms` / `clip_end_ms` — the source's `chunk_start` /
`chunk_end`). -/

structure WordTiming where
  word : String
  rel_start : ℚ
  rel_end : ℚ
  avg_pitch_hz : Option ℚ
  avg_energy_db : Option ℚ
deriving DecidableEq, Inhabited

structure LineChunk where
  line_number : ℕ
  target_text : String
  duration : ℚ
  time_range_start : ℚ
  time_range_end : ℚ
  clip_start_ms : ℚ
  clip_end_ms : ℚ
  avg_pitch_hz : Option ℚ
  avg_energy_db : Option ℚ
  word_count : ℕ
  source_text : String
deriving DecidableEq, Inhabited

/-- Python truthiness of an optional float value: `None` and `0.0` are
falsy, used by `if ... and word_timings[i]["avg_pitch_hz"]:` (lines
187-191). -/
def truthy_value (v : Option ℚ) : Option ℚ :=
  v.bind (fun x => if x = 0 then none else some x)

def collect_truthy (get : WordTiming → Option ℚ) (word_timings : List WordTiming)
    (s e : ℕ) : List ℚ :=
  (List.range' s (e + 1 - s)).filterMap
    (fun i => truthy_value (get (word_timings.getD i default)))

/-- The target-lines list after the `while len(target_lines) < 4:
target_lines.append("")` loop (lines 145-147).  `append` mutates the
caller's list object in place, so this is also the caller-visible state of
that object after the call; the subsequent `target_lines = target_lines[:4]`
only rebinds the local name. -/
def padded_target_lines (target_lines : List String) : List String :=
  target_lines ++ List.replicate (4 - target_lines.length) ""

/-- Caller-visible state of the `target_lines` list object after
`create_line_chunks_from_json` returns (in-place appends are shared through
the alias — including the module-level lyrics table entry — slice rebinding
is not). -/
def caller_target_lines_after (target_lines : List String) : List String :=
  padded_target_lines target_lines

/-- The function's local view of `target_lines` after padding and the
truncating rebind `target_lines = target_lines[:4]` (line 148). -/
def local_target_lines (target_lines : List String) : List String :=
  (padded_target_lines target_lines).take 4

/-- The chunk built for one line (lines 153-216): time bounds taken from the
boundary words' `time_relative` entries, 50 ms symmetric padding clamped to
`[0, len(audio)]`, truthiness-filtered per-word pitch/energy averages, and
the joined source text. -/
def mk_line_chunk (audio_len_ms : ℚ) (word_timings : List WordTiming)
    (lines4 : List String) (line_idx : ℕ) (r : ℕ × ℕ) : LineChunk :=
  let start_time_relative := (word_timings.getD r.1 default).rel_start
  let end_time_relative := (word_timings.getD r.2 default).rel_end
  let start_time_ms := start_time_relative * 1000
  let end_time_ms := end_time_relative * 1000
  let padding_ms : ℚ := 50
  let clip_start := max 0 (start_time_ms - padding_ms)
  let clip_end := min audio_len_ms (end_time_ms + padding_ms)
  let pitch_values := collect_truthy (fun w => w.avg_pitch_hz) word_timings r.1 r.2
  let energy_values := collect_truthy (fun w => w.avg_energy_db) word_timings r.1 r.2
  { line_number := line_idx + 1
    target_text := lines4.getD line_idx ""
    duration := (clip_end - clip_start) / 1000
    time_range_start := start_time_relative
    time_range_end := end_time_relative
    clip_start_ms := clip_start
    clip_end_ms := clip_end
    avg_pitch_hz :=
      if pitch_values = [] then none else some (pitch_values.sum / pitch_values.length)
    avg_energy_db :=
      if energy_values = [] then none else some (energy_values.sum / energy_values.length)
    word_count := r.2 - r.1 + 1
    source_text := String.intercalate " "
      ((List.range' r.1 (r.2 + 1 - r.1)).map (fun i => (word_timings.getD i default).word)) }

/-- The function `create_line_chunks_from_json`: returns `[]` on an empty word list;
otherwise builds one chunk per word range, stopping (`break`) at the first
range whose start index is beyond the word list — `takeWhile`, since range
starts are non-decreasing.  `audio_len_ms` is `len(audio)` of the segment
(the region's length in milliseconds). -/
def create_line_chunks_from_json (audio_len_ms : ℚ) (word_timings : List WordTiming)
    (target_lines : List String) : List LineChunk :=
  if word_timings.length = 0 then []
  else
    ((line_word_ranges word_timings.length).takeWhile
        (fun r => decide (r.1 < word_timings.length))).enum.map
      (fun ir => mk_line_chunk audio_len_ms word_timings (local_target_lines target_lines)
        ir.1 ir.2)

example : (create_line_chunks_from_json 10000
    [⟨"ay", 0, 1, some 200, some 0⟩, ⟨"luz", 1, 2, none, some (-3)⟩] ["a"]).length = 2 := by
  decide

/-- C6.  Every chunk produced by the Chunker takes its relative time bounds
verbatim from the recorded word list: `time_range_start` is exactly the
first word's `relative_start` and `time_range_end` exactly the last word's
`relative_end` (never re-derived from audio), and the extracted audio clip
spans `[max(0, start·1000 − pad), min(region_length_ms, end·1000 + pad)]`
with the symmetric padding `pad = 50 ms ≤ 100 ms`, clamped to the region's
bounds. -/
theorem chunk_bounds_verbatim (audio_len_ms : ℚ) (word_timings : List WordTiming)
    (target_lines : List String) (i : ℕ)
    (hi : i < (create_line_chunks_from_json audio_len_ms word_timings target_lines).length) :
    ((create_line_chunks_from_json audio_len_ms word_timings target_lines).getD i
        default).time_range_start =
      (word_timings.getD ((line_word_ranges word_timings.length).getD i (0, 0)).1
        default).rel_start ∧
    ((create_line_chunks_from_json audio_len_ms word_timings target_lines).getD i
        default).time_range_end =
      (word_timings.getD ((line_word_ranges word_timings.length).getD i (0, 0)).2
        default).rel_end ∧
    ((create_line_chunks_from_json audio_len_ms word_timings target_lines).getD i
        default).clip_start_ms =
      max 0 ((word_timings.getD ((line_word_ranges word_timings.length).getD i (0, 0)).1
        default).rel_start * 1000 - 50) ∧
    ((create_line_chunks_from_json audio_len_ms word_timings target_lines).getD i
        default).clip_end_ms =
      min audio_len_ms
        ((word_timings.getD ((line_word_ranges word_timings.length).getD i (0, 0)).2
          default).rel_end * 1000 + 50) ∧
    ((50 : ℚ) ≤ 100) := by
  by_cases h0 : word_timings.length = 0
  · rw [create_line_chunks_from_json, if_pos h0] at hi
    exact absurd hi (by simp)
  · have hmap : create_line_chunks_from_json audio_len_ms word_timings target_lines =
        ((line_word_ranges word_timings.length).takeWhile
            (fun r => decide (r.1 < word_timings.length))).enum.map
          (fun ir => mk_line_chunk audio_len_ms word_timings
            (local_target_lines target_lines) ir.1 ir.2) := by
      rw [create_line_chunks_from_json, if_neg h0]
    have hitw : i < ((line_word_ranges word_timings.length).takeWhile
        (fun r => decide (r.1 < word_timings.length))).length := by
      have := hi
      rw [hmap] at this
      simpa using this
    have hienum : i < ((line_word_ranges word_timings.length).takeWhile
        (fun r => decide (r.1 < word_timings.length))).enum.length := by
      simpa using hitw
    have hir : i < (line_word_ranges word_timings.length).length :=
      lt_of_lt_of_le hitw (List.IsPrefix.length_le (List.takeWhile_prefix _))
    have hrange : ((line_word_ranges word_timings.length).takeWhile
        (fun r => decide (r.1 < word_timings.length)))[i] =
        (line_word_ranges word_timings.length).getD i (0, 0) := by
      rw [List.IsPrefix.getElem (List.takeWhile_prefix _) hitw,
        List.getD_eq_getElem _ _ hir]
    have hgd : (create_line_chunks_from_json audio_len_ms word_timings target_lines).getD i
        default = mk_line_chunk audio_len_ms word_timings (local_target_lines target_lines)
          i ((line_word_ranges word_timings.length).getD i (0, 0)) := by
      rw [List.getD_eq_getElem _ _ hi, List.getElem_of_eq hmap,
        List.getElem_map, List.getElem_enum, hrange]
    rw [hgd]
    exact ⟨rfl, rfl, rfl, rfl, by norm_num⟩

theorem mk_line_chunk_congr (audio_len_ms : ℚ) (lines4 : List String) (line_idx : ℕ)
    (r : ℕ × ℕ) (l1 l2 : List WordTiming)
    (hview : ∀ j, (l1.getD j default).rel_start = (l2.getD j default).rel_start ∧
        (l1.getD j default).rel_end = (l2.getD j default).rel_end ∧
        (l1.getD j default).word = (l2.getD j default).word ∧
        truthy_value (l1.getD j default).avg_pitch_hz =
          truthy_value (l2.getD j default).avg_pitch_hz ∧
        truthy_value (l1.getD j default).avg_energy_db =
          truthy_value (l2.getD j default).avg_energy_db) :
    mk_line_chunk audio_len_ms l1 lines4 line_idx r =
      mk_line_chunk audio_len_ms l2 lines4 line_idx r := by
  have hcoll : ∀ get1 : WordTiming → Option ℚ,
      (∀ w, get1 w = w.avg_pitch_hz) ∨ (∀ w, get1 w = w.avg_energy_db) →
      collect_truthy get1 l1 r.1 r.2 = collect_truthy get1 l2 r.1 r.2 := by
    intro get1 hget
    unfold collect_truthy
    apply List.filterMap_congr
    intro j hj
    rcases hget with h | h
    · rw [h, h]
      exact (hview j).2.2.2.1
    · rw [h, h]
      exact (hview j).2.2.2.2
  have hwords : (List.range' r.1 (r.2 + 1 - r.1)).map
      (fun i => (l1.getD i default).word) =
      (List.range' r.1 (r.2 + 1 - r.1)).map (fun i => (l2.getD i default).word) := by
    apply List.map_congr_left
    intro j hj
    exact (hview j).2.2.1
  unfold mk_line_chunk
  rw [hcoll _ (Or.inl fun _ => rfl), hcoll _ (Or.inr fun _ => rfl),
    (hview r.1).1, (hview r.2).2.1, hwords]

theorem create_line_chunks_congr (audio_len_ms : ℚ) (target_lines : List String)
    (l1 l2 : List WordTiming) (hlen : l1.length = l2.length)
    (hview : ∀ j, (l1.getD j default).rel_start = (l2.getD j default).rel_start ∧
        (l1.getD j default).rel_end = (l2.getD j default).rel_end ∧
        (l1.getD j default).word = (l2.getD j default).word ∧
        truthy_value (l1.getD j default).avg_pitch_hz =
          truthy_value (l2.getD j default).avg_pitch_hz ∧
        truthy_value (l1.getD j default).avg_energy_db =
          truthy_value (l2.getD j default).avg_energy_db) :
    create_line_chunks_from_json audio_len_ms l1 target_lines =
      create_line_chunks_from_json audio_len_ms l2 target_lines := by
  unfold create_line_chunks_from_json
  rw [hlen]
  split_ifs with h
  · rfl
  · apply List.map_congr_left
    intro ir hir
    exact mk_line_chunk_congr audio_len_ms (local_target_lines target_lines) ir.1 ir.2
      l1 l2 hview

/-- C9.  The Chunker's per-word aggregation tests stored values for Python
truthiness, not presence: a word whose `avg_pitch_hz` or `avg_energy_db` is
exactly `0.0` is excluded from the chunk average exactly as if it were null
— replacing such a field by `none` leaves the entire Chunker output
unchanged, so a genuine 0.0 dB measurement is indistinguishable from a
missing one at the chunk level (`truthy_value (some 0) = truthy_value
none`). -/
theorem chunk_zero_indistinguishable (audio_len_ms : ℚ) (target_lines : List String)
    (wts : List WordTiming) (i : ℕ) (w : WordTiming)
    (hw : wts.getD i default = w) :
    (w.avg_energy_db = some 0 →
      create_line_chunks_from_json audio_len_ms
        (wts.set i { w with avg_energy_db := none }) target_lines =
      create_line_chunks_from_json audio_len_ms wts target_lines) ∧
    (w.avg_pitch_hz = some 0 →
      create_line_chunks_from_json audio_len_ms
        (wts.set i { w with avg_pitch_hz := none }) target_lines =
      create_line_chunks_from_json audio_len_ms wts target_lines) ∧
    truthy_value (some 0) = truthy_value none := by
  have hgdset : ∀ (w2 : WordTiming) (j : ℕ), (wts.set i w2).getD j default =
      if i = j ∧ i < wts.length then w2 else wts.getD j default := by
    intro w2 j
    rw [List.getD, List.getD, List.get?_eq_getElem?, List.get?_eq_getElem?,
      List.getElem?_set]
    by_cases h1 : i = j
    · by_cases h2 : i < wts.length
      · rw [if_pos h1, if_pos h2, if_pos ⟨h1, h2⟩]
        rfl
      · rw [if_pos h1, if_neg h2, if_neg (by tauto)]
        subst h1
        rw [List.getElem?_eq_none (by omega)]
    · rw [if_neg h1, if_neg (by tauto)]
  have hmain : ∀ w2 : WordTiming, w2.rel_start = w.rel_start → w2.rel_end = w.rel_end →
      w2.word = w.word →
      truthy_value w2.avg_pitch_hz = truthy_value w.avg_pitch_hz →
      truthy_value w2.avg_energy_db = truthy_value w.avg_energy_db →
      create_line_chunks_from_json audio_len_ms (wts.set i w2) target_lines =
        create_line_chunks_from_json audio_len_ms wts target_lines := by
    intro w2 h1 h2 h3 h4 h5
    apply create_line_chunks_congr _ _ _ _ (by simp)
    intro j
    rw [hgdset]
    split_ifs with hij
    · obtain ⟨rfl, hilt⟩ := hij
      rw [hw]
      exact ⟨h1, h2, h3, h4, h5⟩
    · exact ⟨rfl, rfl, rfl, rfl, rfl⟩
  have htr : truthy_value (some (0 : ℚ)) = truthy_value none := by
    simp [truthy_value]
  refine ⟨?_, ?_, htr⟩
  · intro he
    exact hmain _ rfl rfl rfl rfl (by rw [he]; exact htr)
  · intro hp
    exact hmain _ rfl rfl rfl (by rw [hp]; exact htr) rfl

/-- C10.  When the supplied target-text list has fewer than 4 entries, the
Chunker pads the caller's list object in place by appending empty strings:
after the call the caller-visible list has length exactly 4 (and the local
view equals it).  With exactly 4 entries nothing changes.  With more than 4
entries only the local name is rebound to a slice: the caller's list is
unchanged while the function works with the 4-entry truncation, which
differs from the caller's list. -/
theorem target_lines_pad_in_place (target_lines : List String) :
    (target_lines.length < 4 →
       caller_target_lines_after target_lines =
         target_lines ++ List.replicate (4 - target_lines.length) "" ∧
       (caller_target_lines_after target_lines).length = 4 ∧
       local_target_lines target_lines = caller_target_lines_after target_lines) ∧
    (target_lines.length = 4 →
       caller_target_lines_after target_lines = target_lines ∧
       local_target_lines target_lines = target_lines) ∧
    (4 < target_lines.length →
       caller_target_lines_after target_lines = target_lines ∧
       local_target_lines target_lines = target_lines.take 4 ∧
       local_target_lines target_lines ≠ target_lines) := by
  have hplen : (padded_target_lines target_lines).length
      = max 4 target_lines.length := by
    simp only [padded_target_lines, List.length_append, List.length_replicate]
    omega
  refine ⟨?_, ?_, ?_⟩
  · intro h
    refine ⟨rfl, ?_, ?_⟩
    · rw [caller_target_lines_after, hplen]
      omega
    · rw [local_target_lines, caller_target_lines_after]
      exact List.take_of_length_le (by omega)
  · intro h
    have hcaller : caller_target_lines_after target_lines = target_lines := by
      rw [caller_target_lines_after, padded_target_lines, h]
      simp
    refine ⟨hcaller, ?_⟩
    have hlocal : local_target_lines target_lines =
        (caller_target_lines_after target_lines).take 4 := rfl
    rw [hlocal, hcaller]
    exact List.take_of_length_le (by omega)
  · intro h
    have hcaller : caller_target_lines_after target_lines = target_lines := by
      rw [caller_target_lines_after, padded_target_lines]
      have : 4 - target_lines.length = 0 := by omega
      simp [this]
    have hlocal : local_target_lines target_lines =
        (caller_target_lines_after target_lines).take 4 := rfl
    refine ⟨hcaller, ?_, ?_⟩
    · rw [hlocal, hcaller]
    · rw [hlocal, hcaller]
      intro hcontra
      have := congrArg List.length hcontra
      simp only [List.length_take] at this
      omega

/-- Model of `generate_target_chunk` (generate_all_spanish_segments.py, lines
250-285), reduced to its control flow: the synthesis collaborator either
raises (`Except.error`, caught by the `try/except` which returns `None`) or
yields a list of audio chunks; an empty list also yields `None`, otherwise
the concatenation is saved and returned. -/
def generate_target_chunk_result (synth_result : Except String (List (List ℤ))) :
    Option (List ℤ) :=
  match synth_result with
  | .error _ => none
  | .ok audio_chunks => if audio_chunks.isEmpty then none else some audio_chunks.flatten

/-- The per-segment loop of `process_segment` (lines 368-372): every chunk
is submitted and its result — possibly `None` — appended to
`chunk_outputs`. -/
def process_chunk_outputs {α : Type} (synth : α → Except String (List (List ℤ)))
    (chunks : List α) : List (Option (List ℤ)) :=
  chunks.map (fun c => generate_target_chunk_result (synth c))

/-- Model of `merge_target_chunks` (lines 287-307): concatenates chunk outputs in
order, skipping entries that are `None`/missing
(`if chunk_path and os.path.exists(chunk_path)`). -/
def merge_target_chunks (chunk_outputs : List (Option (List ℤ))) : List ℤ :=
  chunk_outputs.foldl
    (fun merged o => match o with | some a => merged ++ a | none => merged) []

theorem merge_foldl_eq_join (chunk_outputs : List (Option (List ℤ))) (acc : List ℤ) :
    chunk_outputs.foldl
      (fun merged o => match o with | some a => merged ++ a | none => merged) acc
    = acc ++ (chunk_outputs.filterMap id).flatten := by
  induction chunk_outputs generalizing acc with
  | nil => simp
  | cons o rest ih =>
    cases o with
    | none => simpa using ih acc
    | some a => simpa [List.append_assoc] using ih (acc ++ a)

/-- C8.  If synthesis for one chunk raises an exception or returns empty
output, that chunk's result is recorded as `none` while every sibling chunk
is still processed (the output list has one entry per chunk, each depending
only on its own chunk), and the merge step concatenates exactly the
non-null outputs in order — a single-chunk failure never aborts the run. -/
theorem synthesis_failure_isolated {α : Type} (synth : α → Except String (List (List ℤ)))
    (chunks : List α) (i : ℕ) (c : α) (hc : chunks[i]? = some c)
    (hfail : (∃ msg, synth c = .error msg) ∨ synth c = .ok []) :
    (process_chunk_outputs synth chunks).length = chunks.length ∧
    (process_chunk_outputs synth chunks)[i]? = some none ∧
    (∀ j : ℕ, (process_chunk_outputs synth chunks)[j]? =
      (chunks[j]?).map (fun x => generate_target_chunk_result (synth x))) ∧
    merge_target_chunks (process_chunk_outputs synth chunks) =
      ((process_chunk_outputs synth chunks).filterMap id).flatten := by
  refine ⟨by simp [process_chunk_outputs], ?_, ?_, ?_⟩
  · rw [process_chunk_outputs, List.getElem?_map, hc]
    have hnone : generate_target_chunk_result (synth c) = none := by
      rcases hfail with ⟨msg, hmsg⟩ | hempty
      · simp [generate_target_chunk_result, hmsg]
      · simp [generate_target_chunk_result, hempty]
    rw [Option.map_some', hnone]
  · intro j
    rw [process_chunk_outputs, List.getElem?_map]
  · exact merge_foldl_eq_join _ []

/-- Witness for C6 on a concrete two-word segment, chunk 0. -/
theorem chunk_bounds_verbatim_witness :
    ((create_line_chunks_from_json 10000
        [⟨"ay", 1, 2, none, none⟩, ⟨"luz", 2, 3, none, none⟩] ["x"]).getD 0
        default).time_range_start =
      (([⟨"ay", 1, 2, none, none⟩, ⟨"luz", 2, 3, none, none⟩] : List WordTiming).getD
        ((line_word_ranges ([⟨"ay", 1, 2, none, none⟩,
          ⟨"luz", 2, 3, none, none⟩] : List WordTiming).length).getD 0 (0, 0)).1
        default).rel_start ∧
    ((create_line_chunks_from_json 10000
        [⟨"ay", 1, 2, none, none⟩, ⟨"luz", 2, 3, none, none⟩] ["x"]).getD 0
        default).time_range_end =
      (([⟨"ay", 1, 2, none, none⟩, ⟨"luz", 2, 3, none, none⟩] : List WordTiming).getD
        ((line_word_ranges ([⟨"ay", 1, 2, none, none⟩,
          ⟨"luz", 2, 3, none, none⟩] : List WordTiming).length).getD 0 (0, 0)).2
        default).rel_end ∧
    ((create_line_chunks_from_json 10000
        [⟨"ay", 1, 2, none, none⟩, ⟨"luz", 2, 3, none, none⟩] ["x"]).getD 0
        default).clip_start_ms =
      max 0 ((([⟨"ay", 1, 2, none, none⟩, ⟨"luz", 2, 3, none, none⟩] :
          List WordTiming).getD
        ((line_word_ranges ([⟨"ay", 1, 2, none, none⟩,
          ⟨"luz", 2, 3, none, none⟩] : List WordTiming).length).getD 0 (0, 0)).1
        default).rel_start * 1000 - 50) ∧
    ((create_line_chunks_from_json 10000
        [⟨"ay", 1, 2, none, none⟩, ⟨"luz", 2, 3, none, none⟩] ["x"]).getD 0
        default).clip_end_ms =
      min 10000 ((([⟨"ay", 1, 2, none, none⟩, ⟨"luz", 2, 3, none, none⟩] :
          List WordTiming).getD
        ((line_word_ranges ([⟨"ay", 1, 2, none, none⟩,
          ⟨"luz", 2, 3, none, none⟩] : List WordTiming).length).getD 0 (0, 0)).2
        default).rel_end * 1000 + 50) ∧
    ((50 : ℚ) ≤ 100) :=
  chunk_bounds_verbatim 10000 [⟨"ay", 1, 2, none, none⟩, ⟨"luz", 2, 3, none, none⟩]
    ["x"] 0 (by decide)

/-- Witness for C9: a word with `avg_energy_db = 0.0` (and `avg_pitch_hz`
200) in a concrete two-word list. -/
theorem chunk_zero_indistinguishable_witness :
    ((⟨"ay", 0, 1, some 200, some 0⟩ : WordTiming).avg_energy_db = some 0 →
      create_line_chunks_from_json 10000
        (([⟨"ay", 0, 1, some 200, some 0⟩, ⟨"luz", 1, 2, none, some (-3)⟩] :
            List WordTiming).set 0
          { (⟨"ay", 0, 1, some 200, some 0⟩ : WordTiming) with avg_energy_db := none })
        ["a", "b", "c", "d"] =
      create_line_chunks_from_json 10000
        [⟨"ay", 0, 1, some 200, some 0⟩, ⟨"luz", 1, 2, none, some (-3)⟩]
        ["a", "b", "c", "d"]) ∧
    ((⟨"ay", 0, 1, some 200, some 0⟩ : WordTiming).avg_pitch_hz = some 0 →
      create_line_chunks_from_json 10000
        (([⟨"ay", 0, 1, some 200, some 0⟩, ⟨"luz", 1, 2, none, some (-3)⟩] :
            List WordTiming).set 0
          { (⟨"ay", 0, 1, some 200, some 0⟩ : WordTiming) with avg_pitch_hz := none })
        ["a", "b", "c", "d"] =
      create_line_chunks_from_json 10000
        [⟨"ay", 0, 1, some 200, some 0⟩, ⟨"luz", 1, 2, none, some (-3)⟩]
        ["a", "b", "c", "d"]) ∧
    truthy_value (some 0) = truthy_value none :=
  chunk_zero_indistinguishable 10000 ["a", "b", "c", "d"]
    [⟨"ay", 0, 1, some 200, some 0⟩, ⟨"luz", 1, 2, none, some (-3)⟩] 0
    ⟨"ay", 0, 1, some 200, some 0⟩ rfl

/-- Witness for C10 at a 1-entry list (padded in place to 4) and a 5-entry
list (caller list untouched, local view truncated). -/
theorem target_lines_pad_in_place_witness :
    caller_target_lines_after ["uno"] = ["uno"] ++ List.replicate (4 - 1) "" ∧
    (caller_target_lines_after ["uno"]).length = 4 ∧
    caller_target_lines_after ["a", "b", "c", "d", "e"] = ["a", "b", "c", "d", "e"] ∧
    local_target_lines ["a", "b", "c", "d", "e"] = ["a", "b", "c", "d", "e"].take 4 := by
  have h1 := (target_lines_pad_in_place ["uno"]).1 (by norm_num)
  have h3 := (target_lines_pad_in_place ["a", "b", "c", "d", "e"]).2.2 (by norm_num)
  exact ⟨h1.1, h1.2.1, h3.1, h3.2.1⟩

/-- A synthesis collaborator for the C8 witness that fails on the chunk
named "bad". -/
def demo_synth (c : String) : Except String (List (List ℤ)) :=
  if c = "bad" then .error "boom" else .ok [[1, 2]]

/-- Witness for C8: chunk "bad" of three raises, the siblings are still
processed and merged. -/
theorem synthesis_failure_isolated_witness :
    (process_chunk_outputs demo_synth ["ok1", "bad", "ok2"]).length =
      (["ok1", "bad", "ok2"] : List String).length ∧
    (process_chunk_outputs demo_synth ["ok1", "bad", "ok2"])[1]? = some none ∧
    (∀ j : ℕ, (process_chunk_outputs demo_synth ["ok1", "bad", "ok2"])[j]? =
      ((["ok1", "bad", "ok2"] : List String)[j]?).map
        (fun x => generate_target_chunk_result (demo_synth x))) ∧
    merge_target_chunks (process_chunk_outputs demo_synth ["ok1", "bad", "ok2"]) =
      ((process_chunk_outputs demo_synth ["ok1", "bad", "ok2"]).filterMap id).flatten :=
  synthesis_failure_isolated demo_synth ["ok1", "bad", "ok2"] 1 "bad" rfl
    (Or.inl ⟨"boom", by simp [demo_synth]⟩)
